import Mathlib

/-
Verification of the HoverReader word-layout / tooltip subsystem.

The development shallowly embeds the parts of the application that the
specification describes: the Arabic script normalizers, the bounded
recency-ordered word-tooltip cache, the tooltip resolver, the text-layer
word-layout engine with its usability gate, the OCR two-engine fallback
orchestrator, the per-page PDF pipeline, and the hover tooltip state
machines (PDF overlay and DOCX word spans).

JavaScript strings are modelled as lists of Unicode code points
(`List Nat`); numeric quantities coming from the rendering geometry are
modelled as rationals; fallible operations are modelled with `Except`;
external collaborators (the PDF renderer, the OCR HTTP service, the
translation HTTP service) enter the model as explicit inputs describing
their observable outcome.
-/

set_option autoImplicit false

namespace HoverReader

/-- JavaScript strings, modelled as lists of Unicode code points. -/
abbrev JStr := List Nat

/-- The character class of the JavaScript regular-expression escape `\s`
(ECMAScript WhiteSpace plus LineTerminator code points). -/
def isJsWs (c : Nat) : Bool :=
  c == 0x9 || c == 0xA || c == 0xB || c == 0xC || c == 0xD || c == 0x20 ||
  c == 0xA0 || c == 0x1680 || (decide (0x2000 ≤ c) && decide (c ≤ 0x200A)) ||
  c == 0x2028 || c == 0x2029 || c == 0x202F || c == 0x205F || c == 0x3000 ||
  c == 0xFEFF

/-- The character class of the source regex
`/[ؐ-ًؚ-ٟۖ-ۭ]/`: Hamza-related combining
marks, the harakat range `064B..065F`, and the Quranic annotation marks. -/
def isArabicDiacritic (c : Nat) : Bool :=
  (decide (0x610 ≤ c) && decide (c ≤ 0x61A)) ||
  (decide (0x64B ≤ c) && decide (c ≤ 0x65F)) ||
  (decide (0x6D6 ≤ c) && decide (c ≤ 0x6ED))

/-- `stripDiacritics(s)`: the global regex replace `/.../g → ""` scans the
string and deletes every matching code point. -/
def stripDiacritics : JStr → JStr
  | [] => []
  | c :: cs =>
    if isArabicDiacritic c then stripDiacritics cs else c :: stripDiacritics cs

/-- `replace(/[إأآا]/g, "ا")`: canonicalize alef variants to bare alef. -/
def alefToBare (c : Nat) : Nat :=
  if c = 0x625 ∨ c = 0x623 ∨ c = 0x622 ∨ c = 0x627 then 0x627 else c

/-- `replace(/ى/g, "ي")`: alef-maksura to yaa. -/
def maksuraToYaa (c : Nat) : Nat := if c = 0x649 then 0x64A else c

/-- `replace(/ة/g, "ه")`: ta-marbuta to haa. -/
def taMarbutaToHaa (c : Nat) : Nat := if c = 0x629 then 0x647 else c

/-- `replace(/[ؤئ]/g, "ء")`: hamza-carrying waw/yaa to bare hamza. -/
def hamzaCarrierToHamza (c : Nat) : Nat :=
  if c = 0x624 ∨ c = 0x626 then 0x621 else c

/-- Membership in the Arabic Unicode block `[؀-ۿ]`. -/
def inArabicBlock (c : Nat) : Bool := decide (0x600 ≤ c) && decide (c ≤ 0x6FF)

/-- `normalizeArabic(s)`: the source applies, in order, the four
single-character canonicalizations, then removes tatweel (`ـ`), then
removes every character outside `[؀-ۿ\s]`. -/
def normalizeArabic (s : JStr) : JStr :=
  (((((s.map alefToBare).map maksuraToYaa).map taMarbutaToHaa).map
        hamzaCarrierToHamza).filter (fun c => c != 0x640)).filter
    (fun c => inArabicBlock c || isJsWs c)

/-- Per-character script test. The source's primary path tests
`/\p{Script=Arabic}/u` and its fallback path (taken when Unicode property
escapes are unsupported) counts `[؀-ۿ]` matches; the two paths
agree on the Arabic-block and ASCII inputs treated in this development, so
both are modelled by the block-range test. -/
def isArabicScriptChar (c : Nat) : Bool := inArabicBlock c

/-- `safeIsArabicString(s)`: empty (falsy) strings classify `false`;
otherwise the fraction of script characters must be at least `0.6`
(`count / length >= 0.6`, i.e. `3 * length ≤ 5 * count`). -/
def safeIsArabicString (s : JStr) : Bool :=
  match s with
  | [] => false
  | _ => decide (3 * s.length ≤ 5 * (s.filter isArabicScriptChar).length)

/-- A JavaScript argument value: `null`, `undefined`, or a string. -/
inductive JSVal where
  | nullV
  | undefV
  | strV (s : JStr)

/-- `stripDiacritics` at the JavaScript call boundary: `(s || "")` maps
both `null` and `undefined` (and `""`) to the empty string, so the body
never fails. -/
def stripDiacriticsJS : JSVal → Except Unit JStr
  | .nullV => .ok (stripDiacritics [])
  | .undefV => .ok (stripDiacritics [])
  | .strV s => .ok (stripDiacritics s)

/-- `normalizeArabic` at the JavaScript call boundary: the declaration
`function normalizeArabic(s = "")` substitutes the default only for
`undefined`; passing `null` reaches `null.replace(...)`, which raises a
TypeError, modelled as `Except.error`. -/
def normalizeArabicJS : JSVal → Except Unit JStr
  | .nullV => .error ()
  | .undefV => .ok (normalizeArabic [])
  | .strV s => .ok (normalizeArabic s)

/-- `safeIsArabicString` at the JavaScript call boundary: the default
parameter covers `undefined`, and the guard `if (!s) return false` makes
`null` (falsy) return `false` without touching the body. -/
def safeIsArabicStringJS : JSVal → Except Unit Bool
  | .nullV => .ok false
  | .undefV => .ok false
  | .strV s => .ok (safeIsArabicString s)

/-! ### Generic string helpers used by the layout engine and resolver -/

/-- `String.prototype.trim()`: remove leading and trailing whitespace. -/
def trimWs (s : JStr) : JStr :=
  ((s.dropWhile (fun c => isJsWs c)).reverse.dropWhile (fun c => isJsWs c)).reverse

/-- `replace(/\s+/g, " ")`: collapse each maximal whitespace run to a
single space. -/
def collapseWs : JStr → JStr
  | [] => []
  | c :: cs =>
    if isJsWs c then
      match cs with
      | [] => [0x20]
      | d :: ds =>
        if isJsWs d then collapseWs (d :: ds) else 0x20 :: collapseWs (d :: ds)
    else c :: collapseWs cs

/-- Accumulator form of `split(" ")`. -/
def splitOnSpaceAux : JStr → JStr → List JStr
  | [], acc => [acc.reverse]
  | c :: cs, acc =>
    if c = 0x20 then acc.reverse :: splitOnSpaceAux cs []
    else splitOnSpaceAux cs (c :: acc)

/-- `split(" ")`: the pieces between space characters. -/
def splitOnSpace (s : JStr) : List JStr := splitOnSpaceAux s []

/-- `replace(/\s+/g, "")`: drop every whitespace character. -/
def dropAllWs (s : JStr) : JStr := s.filter (fun c => !(isJsWs c))

/-! ### Word tooltip cache

`WordCache` wraps a JavaScript `Map`, which iterates in insertion order;
the map is modelled as an association list whose head is the
oldest-inserted (least recently touched) binding. -/

/-- The bounded recency-ordered word-tooltip cache (`class WordCache`). -/
structure WordCache where
  limit : Nat
  entries : List (JStr × JStr)
deriving DecidableEq

/-- `Map.prototype.get`/`has`: the binding for a key (keys are unique, so
the first binding is the only one). -/
def lookupKey : List (JStr × JStr) → JStr → Option JStr
  | [], _ => Option.none
  | (k, v) :: es, key => if k = key then some v else lookupKey es key

/-- `Map.prototype.delete`: remove the binding for a key, if any. -/
def eraseKey : List (JStr × JStr) → JStr → List (JStr × JStr)
  | [], _ => []
  | (k, v) :: es, key => if k = key then es else (k, v) :: eraseKey es key

/-- `WordCache.get(key)`: `null` on a miss; on a hit, delete and re-insert
the binding (moving it to the most-recently-used position) and return the
value. Returns the looked-up value together with the updated cache. -/
def WordCache.get (c : WordCache) (key : JStr) : Option JStr × WordCache :=
  match lookupKey c.entries key with
  | Option.none => (Option.none, c)
  | some v => (some v, { c with entries := eraseKey c.entries key ++ [(key, v)] })

/-- `WordCache.set(key, val)`: delete any existing binding, insert at the
most-recently-used position, then evict the single least-recently-used
binding if the size exceeds the capacity. -/
def WordCache.set (c : WordCache) (key v : JStr) : WordCache :=
  let es := eraseKey c.entries key ++ [(key, v)]
  if c.limit < es.length then { c with entries := es.tail }
  else { c with entries := es }

/-- One cache operation, for stating properties of operation sequences. -/
inductive CacheOp where
  | getOp (key : JStr)
  | setOp (key : JStr) (v : JStr)

/-- Apply one cache operation (discarding `get`'s returned value). -/
def applyOp (c : WordCache) : CacheOp → WordCache
  | .getOp k => (c.get k).2
  | .setOp k v => c.set k v

/-- Apply a sequence of cache operations from left to right. -/
def applyOps (c : WordCache) : List CacheOp → WordCache
  | [] => c
  | op :: ops => applyOps (applyOp c op) ops

/-- Insert a list of key/value pairs in order via `WordCache.set`. -/
def insertList (c : WordCache) : List (JStr × JStr) → WordCache
  | [] => c
  | (k, v) :: rest => insertList (c.set k v) rest

/-! ### Tooltip resolver -/

/-- A lexicon entry as consumed by the resolver: only the gloss list is
read (`entry.glosses || []`), and the field may be absent. -/
structure LexEntry where
  glosses : Option (List JStr)
deriving DecidableEq

/-- `Array.prototype.join(", ")` over the gloss list. -/
def joinComma : List JStr → JStr
  | [] => []
  | [g] => g
  | g :: gs => g ++ [0x2C, 0x20] ++ joinComma gs

/-- The candidate loop of `getWordTooltip`: return the entry of the first
candidate bound in the lexicon map. -/
def firstHit (lexicon : JStr → Option LexEntry) : List JStr → Option LexEntry
  | [] => Option.none
  | c :: cs =>
    match lexicon c with
    | some e => some e
    | Option.none => firstHit lexicon cs

/-- Result of one tooltip resolution: the tooltip text, the cache after
the call, and whether the translation service was invoked
(instrumentation for the "no further translation call" properties). -/
structure TooltipOutcome where
  tip : JStr
  cache : WordCache
  translateCalled : Bool
deriving DecidableEq

/-- The translation step of `getWordTooltip`: `translateAPI` either throws
(network/HTTP failure) or resolves to a string (possibly empty when the
response shape is unrecognized). On success the stored and returned
tooltip is `en || arWord`; on failure the raw word is returned and the
cache is left untouched. -/
def translateStep (arWord : JStr) (c : WordCache) :
    Except Unit JStr → TooltipOutcome
  | .ok en =>
    let tip := if en = [] then arWord else en
    { tip := tip, cache := c.set arWord tip, translateCalled := true }
  | .error _ => { tip := arWord, cache := c, translateCalled := true }

/-- `getWordTooltip(arWord, lexicon)`: empty/blank words resolve to `""`;
otherwise try the lexicon on the four candidates in order, then the cache
keyed by the raw word (a falsy cached value falls through, after the
`get` has already refreshed recency), then the translation service. The
outcome of the (awaited) `translateAPI` call is passed in as `translated`. -/
def getWordTooltip (arWord : JStr) (lexicon : JStr → Option LexEntry)
    (cache : WordCache) (translated : Except Unit JStr) : TooltipOutcome :=
  if trimWs arWord = [] then
    { tip := [], cache := cache, translateCalled := false }
  else
    match firstHit lexicon [arWord, stripDiacritics arWord,
        normalizeArabic arWord, normalizeArabic (stripDiacritics arWord)] with
    | some entry =>
      { tip := joinComma (entry.glosses.getD []), cache := cache,
        translateCalled := false }
    | Option.none =>
      let gc := cache.get arWord
      match gc.1 with
      | some v => if v ≠ [] then
            { tip := v, cache := gc.2, translateCalled := false }
          else translateStep arWord gc.2 translated
      | Option.none => translateStep arWord gc.2 translated

/-! ### Text-layer word layout engine

A PDF text item enters the model carrying the quantities the source
computes through the external rendering library: `width` is the item's
intrinsic width (`it.width`), `tx`/`ty` are the translation components
`t[4]`/`t[5]` of the composed transform `Util.transform(viewport.transform,
it.transform)`, and `fontHeight` is `Math.hypot(t[1], t[3])`, all in
device pixel space. -/

/-- The page viewport; only its `scale` is read by the layout code. -/
structure Viewport where
  scale : ℚ
deriving DecidableEq

/-- One positioned text run from `page.getTextContent()`. -/
structure TextItem where
  str : JStr
  width : ℚ
  tx : ℚ
  ty : ℚ
  fontHeight : ℚ
deriving DecidableEq

/-- One hit-testable word box (field names follow the source's OCR.space
overlay shape, which the text-layer path mirrors). -/
structure WordBox where
  WordText : JStr
  Left : ℚ
  Top : ℚ
  Width : ℚ
  Height : ℚ
  lineText : JStr
deriving DecidableEq

/-- The per-piece loop of `layoutWordsFromTextItems`: distribute the run
width over the word pieces proportionally to character count, advancing a
left cursor and inserting a gap of `width / totalChars` between pieces. -/
def layoutParts (lineStr : JStr) (y h width : ℚ) (totalChars : Nat) :
    List JStr → ℚ → List WordBox
  | [], _ => []
  | p :: ps, cursorX =>
    let chars := (dropAllWs p).length
    let w := max 3 (width * ((chars : ℚ) / (totalChars : ℚ)))
    { WordText := p, Left := cursorX, Top := y - h, Width := w,
      Height := max 10 (h * (23 / 20)), lineText := lineStr } ::
      layoutParts lineStr y h width totalChars ps
        (cursorX + w + width * (1 / (totalChars : ℚ)))

/-- The per-item body of `layoutWordsFromTextItems` (the item has already
passed the blank and script filters). `23/20` models the literal `1.15`
and `fontHeight || 12` fires on a zero magnitude. -/
def layoutItem (vp : Viewport) (it : TextItem) : List WordBox :=
  let width := it.width * vp.scale
  let h := if it.fontHeight = 0 then 12 else it.fontHeight
  let clean := trimWs (collapseWs it.str)
  let parts := (splitOnSpace clean).filter (fun p => !p.isEmpty)
  let totalChars := if (dropAllWs clean).length = 0 then 1
    else (dropAllWs clean).length
  layoutParts it.str it.ty h width totalChars parts it.tx

/-- `layoutWordsFromTextItems(items, viewport)`: skip runs that are blank
after trimming or fail the script test; lay out the rest. -/
def layoutWordsFromTextItems (items : List TextItem) (vp : Viewport) :
    List WordBox :=
  match items with
  | [] => []
  | it :: rest =>
    if trimWs it.str = [] then layoutWordsFromTextItems rest vp
    else if !(safeIsArabicString it.str) then layoutWordsFromTextItems rest vp
    else layoutItem vp it ++ layoutWordsFromTextItems rest vp

/-- Result of the text-layer attempt for one page. -/
structure GateResult where
  words : List WordBox
  mode : String
  reason : String
deriving DecidableEq

/-- The text-layer attempt with its usability gate (`handlePdf`, non-forced
branch): if the page has runs and fewer than `0.2` of them classify as
target script (`arabicItems.length / items.length < 0.2`, i.e.
`5 * count < length`), the embedded text is presumed glyph junk; otherwise
lay out word boxes and require at least 3 of them. -/
def attemptTextLayer (items : List TextItem) (vp : Viewport) : GateResult :=
  let arabicItems := items.filter (fun it => safeIsArabicString it.str)
  if 0 < items.length ∧ 5 * arabicItems.length < items.length then
    { words := [], mode := "none", reason := "embedded-glyphs" }
  else
    let words := layoutWordsFromTextItems items vp
    if words.length < 3 then
      { words := words, mode := "none", reason := "no-words" }
    else { words := words, mode := "text", reason := "" }

/-! ### OCR fallback orchestrator (serverless proxy `callWithFallback`) -/

/-- One word of an OCR.space overlay. -/
structure OcrWord where
  WordText : JStr
  Left : ℚ
  Top : ℚ
  Width : ℚ
  Height : ℚ
deriving DecidableEq

/-- One overlay line: `LineText` may be absent, `Words` defaults to `[]`
(`line.Words || []`). -/
structure OcrLine where
  LineText : Option JStr
  Words : List OcrWord
deriving DecidableEq

/-- The `TextOverlay` object of a parsed result. -/
structure OcrOverlay where
  Lines : List OcrLine
deriving DecidableEq

/-- One element of `ParsedResults`; only `TextOverlay` is read. -/
structure ParsedResult where
  TextOverlay : Option OcrOverlay
deriving DecidableEq

/-- A loosely-shaped OCR.space JSON body: every field may be absent
(mirroring the duck-typed access `resp?.ParsedResults?.[0]` and the spread
merge `{ errorDefaults, ...j }`). -/
structure OcrJson where
  ParsedResults : Option (List ParsedResult) := Option.none
  OCRExitCode : Option Nat := Option.none
  IsErroredOnProcessing : Option Bool := Option.none
  ErrorMessage : Option (List String) := Option.none
  note : Option String := Option.none
deriving DecidableEq

/-- `countOverlay(resp)`: the number of overlay words of the first parsed
result, with every missing field treated as empty. -/
def countOverlay (j : OcrJson) : Nat :=
  match (j.ParsedResults.getD []).head? with
  | Option.none => 0
  | some pr =>
    match pr.TextOverlay with
    | Option.none => 0
    | some ov => (ov.Lines.map (fun ln => ln.Words.length)).sum

/-- The observable outcome of one `fetch` of the OCR service: the request
throws (engine timeout aborts the fetch, or the transport fails), returns
a non-2xx HTTP status with some (possibly empty) JSON body, or succeeds
with a JSON body. -/
inductive FetchOutcome where
  | throwErr (msg : String)
  | httpErr (status : Nat) (body : OcrJson)
  | success (body : OcrJson)

/-- `callEngine(engine, ...)`: a throw is caught and replaced by the error
object `{OCRExitCode: 999, IsErroredOnProcessing: true, ErrorMessage}`
(with no `ParsedResults`); a non-ok status yields the same error defaults
spread under the parsed body (`{...defaults, ...j}`: the body's own fields
win when present); a success returns the body unchanged. -/
def callEngine : FetchOutcome → OcrJson
  | .throwErr m =>
    { OCRExitCode := some 999, IsErroredOnProcessing := some true,
      ErrorMessage := some [m] }
  | .httpErr status j =>
    { ParsedResults := j.ParsedResults,
      OCRExitCode := some (j.OCRExitCode.getD 999),
      IsErroredOnProcessing := some (j.IsErroredOnProcessing.getD true),
      ErrorMessage := some (j.ErrorMessage.getD ["HTTP " ++ toString status]),
      note := j.note }
  | .success j => j

/-- `callWithFallback`: call engine 2 first; if it yields any overlay
words use it; otherwise call engine 1 and use its result only when its
overlay word count is strictly greater, keeping engine 2's result on a
tie. `o2`/`o1` are the fetch outcomes of the engine-2 and engine-1 calls. -/
def callWithFallback (o2 o1 : FetchOutcome) : OcrJson :=
  let first := callEngine o2
  if 0 < countOverlay first then
    { first with note := some "Used OCR Engine 2." }
  else
    let second := callEngine o1
    if countOverlay first < countOverlay second then
      { second with note := some "Used OCR Engine 1 (more overlay words)." }
    else { first with note := some "Engine 2 kept (Engine 1 not better)." }

/-- A sample OCR response carrying five overlay words on one line, used to
instantiate the fallback properties concretely. -/
def fiveWordLine : OcrLine :=
  { LineText := Option.none,
    Words := List.replicate 5
      { WordText := [0x627], Left := 0, Top := 0, Width := 1, Height := 1 } }

/-- The sample response wrapping `fiveWordLine`. -/
def fiveWordResp : OcrJson :=
  { ParsedResults := some [{ TextOverlay := some { Lines := [fiveWordLine] } }] }

/-! ### Per-page PDF pipeline (`handlePdf`) -/

/-- The rendered page image reference stored in a page record. -/
structure PageImg where
  dataUrl : String
  width : ℚ
  height : ℚ
deriving DecidableEq

/-- `Array.prototype.join(" ")`. -/
def joinSpace : List JStr → JStr
  | [] => []
  | [w] => w
  | w :: ws => w ++ [0x20] ++ joinSpace ws

/-- `ocr?.ParsedResults?.[0]` flattening in `handlePdf`: each overlay word
becomes a word box carrying its line's text (`line.LineText ||` the words
joined by single spaces). -/
def flattenOcrWords (j : OcrJson) : List WordBox :=
  match (j.ParsedResults.getD []).head? with
  | Option.none => []
  | some pr =>
    match pr.TextOverlay with
    | Option.none => []
    | some ov =>
      (ov.Lines.map (fun ln =>
        let joined := joinSpace (ln.Words.map (fun w => w.WordText))
        let lineText := match ln.LineText with
          | some t => if t = [] then joined else t
          | Option.none => joined
        ln.Words.map (fun w =>
          { WordText := w.WordText, Left := w.Left, Top := w.Top,
            Width := w.Width, Height := w.Height, lineText := lineText }))).flatten

/-- The six synthetic debug boxes appended when "draw test boxes" is on. -/
def synthBoxes : List WordBox :=
  (List.range 6).map (fun k =>
    { WordText := [0x627, 0x62E, 0x62A, 0x628, 0x627, 0x631],
      Left := 20 + 24 * (k : ℚ), Top := 50 + 28 * (k : ℚ),
      Width := 120, Height := 36,
      lineText := [0x645, 0x631, 0x628, 0x639, 0x20, 0x627, 0x62E, 0x62A,
        0x628, 0x627, 0x631, 0x20, 0x62A, 0x641, 0x627, 0x639, 0x644,
        0x64A] })

/-- One processed page (`pageMeta`), as pushed into the page list. -/
structure PageMeta where
  img : Option PageImg
  overlay : List WordBox
  mode : String
  reason : String
  boxCount : Nat
  error : Option String
deriving DecidableEq

/-- The per-page UI toggles read by the pipeline. -/
structure PageCtx where
  forceOcr : Bool
  testBoxes : Bool
deriving DecidableEq

/-- The observable per-page environment: either an awaited step of the
`try` block throws (`getPage`/render, or `getTextContent` after the image
was already stored), or the page yields its rendered image, its text
items, and — should the pipeline ask for it — the outcome of the OCR
request. -/
inductive PageInput where
  | renderFail (msg : String)
  | textFail (img : PageImg) (msg : String)
  | okPage (img : PageImg) (items : List TextItem)
      (ocr : Except String OcrJson)

/-- The OCR-fallback tail of the page body: when the text-layer attempt
was not usable (or produced no words), replace the words with the flattened
OCR overlay and rewrite the diagnostic reason; an OCR failure leaves the
page with no words and an `OCR error: ...` reason. Finally append the
synthetic debug boxes if requested. -/
def finishPage (ctx : PageCtx) (img : PageImg) (g : GateResult)
    (ocr : Except String OcrJson) : PageMeta :=
  let afterOcr :=
    if g.mode ≠ "text" ∨ g.words = [] then
      match ocr with
      | .ok j =>
        { words := flattenOcrWords j, mode := "ocr",
          reason :=
            if g.reason = "embedded-glyphs" then
              "Embedded text wasn’t Unicode Arabic; OCR used."
            else if g.reason = "forced-ocr" then "Force OCR enabled."
            else if g.reason = "" then "No usable text layer; OCR used."
            else g.reason : GateResult }
      | .error m =>
        { words := [], mode := "ocr", reason := "OCR error: " ++ m }
    else g
  let words := if ctx.testBoxes then afterOcr.words ++ synthBoxes
    else afterOcr.words
  { img := some img, overlay := words, mode := afterOcr.mode,
    reason := afterOcr.reason, boxCount := words.length,
    error := Option.none }

/-- The body of one iteration of the `handlePdf` page loop, `try`/`catch`
included: a thrown step leaves the page record in its state at the throw
(the initial record, plus the image if it was already stored) with the
error message captured; otherwise run the text-layer attempt (or skip it
under force-OCR) followed by the OCR fallback when needed. The viewport
scale is the fixed `1.6` of `pdfToPageImage(page, 1.6)`. -/
def processPage (ctx : PageCtx) : PageInput → PageMeta
  | .renderFail m =>
    { img := Option.none, overlay := [], mode := "none", reason := "",
      boxCount := 0, error := some m }
  | .textFail img m =>
    { img := some img, overlay := [], mode := "none", reason := "",
      boxCount := 0, error := some m }
  | .okPage img items ocr =>
    if ctx.forceOcr then
      finishPage ctx img { words := [], mode := "none", reason := "forced-ocr" } ocr
    else finishPage ctx img (attemptTextLayer items { scale := 8 / 5 }) ocr

/-- The `handlePdf` page loop: process the pages in order, pushing each
completed record (`out.push(pageMeta)`). -/
def handlePdfLoop (ctx : PageCtx) : List PageInput → List PageMeta
  | [] => []
  | inp :: rest => processPage ctx inp :: handlePdfLoop ctx rest

/-! ### Hover tooltip state machines

Hover resolution suspends at the `await getWordTooltip(...)` boundary.
Each handler is split into the synchronous prefix that runs up to the
`await` (returning the updated component state together with the pending
resolution it started, if any) and the continuation that runs when the
awaited tooltip arrives. Interleavings of several hovers are sequences of
these two kinds of steps. -/

/-- The PDF overlay hover state: the displayed tooltip (`hover`, `null` or
`{text}`), the tooltip position, and the `lastHoverWord` ref. -/
structure PdfHoverState where
  hover : Option JStr
  pos : ℚ × ℚ
  lastHoverWord : JStr
deriving DecidableEq

/-- Synchronous prefix of `handleEnter(e, w)` (PDF overlay): update the
position; a blank word clears the tooltip; re-entering the word already
shown keeps it; otherwise show the raw word as a placeholder, record it in
`lastHoverWord`, and start a resolution for it (the returned pending
word). -/
def handleEnter (st : PdfHoverState) (evPos : ℚ × ℚ) (w : JStr) :
    PdfHoverState × Option JStr :=
  let st := { st with pos := evPos }
  let word := trimWs w
  if word = [] then ({ st with hover := Option.none }, Option.none)
  else if st.lastHoverWord = word ∧ st.hover.getD [] ≠ [] then
    ({ st with hover := some (st.hover.getD []) }, Option.none)
  else
    ({ st with hover := some word, lastHoverWord := word }, some word)

/-- Continuation of `handleEnter` after `await getWordTooltip`: the
resolved tip is applied only if `lastHoverWord` still holds the word this
resolution was started for. -/
def handleEnterResume (st : PdfHoverState) (word tip : JStr) : PdfHoverState :=
  if st.lastHoverWord = word then { st with hover := some tip } else st

/-- The DOCX hover state: the displayed tooltip (`hoverTip`, `null` or
`{text, x, y}`) and the shared mutable `tipState.pos`. -/
structure DocxTipState where
  hoverTip : Option (JStr × ℚ × ℚ)
  tipPos : ℚ × ℚ
deriving DecidableEq

/-- Synchronous prefix of the DOCX `onHover(e, word)`: a leave event
(`null` arguments) clears the tooltip; otherwise record the pointer
position, show the raw word as a placeholder there, and start a resolution
for it. -/
def docxOnHover (st : DocxTipState) (ev : Option (ℚ × ℚ)) (w : Option JStr) :
    DocxTipState × Option JStr :=
  match ev, w with
  | some p, some word =>
    ({ st with tipPos := p, hoverTip := some (word, p.1, p.2) }, some word)
  | _, _ => ({ st with hoverTip := Option.none }, Option.none)

/-- Continuation of the DOCX `onHover` after `await getWordTooltip`: the
resolved gloss (`gloss || word`) is applied unconditionally at the current
`tipState.pos` — there is no staleness check in this path. -/
def docxOnHoverResume (st : DocxTipState) (word gloss : JStr) : DocxTipState :=
  let txt := if gloss = [] then word else gloss
  { st with hoverTip := some (txt, st.tipPos.1, st.tipPos.2) }

/-! ## Theorems -/

/-- The regex-scan form of `stripDiacritics` is the filter that keeps
exactly the non-diacritic characters. -/
theorem stripDiacritics_eq_filter (s : JStr) :
    stripDiacritics s = s.filter (fun c => !(isArabicDiacritic c)) := by
  induction s with
  | nil => rfl
  | cons c cs ih => cases h : isArabicDiacritic c <;> simp [stripDiacritics, h, ih]

/-- C5: `stripDiacritics` removes exactly the code points of the three
Arabic diacritic ranges (`0610–061A`, `064B–065F`, `06D6–06ED`), keeping
every other character in order: the result is the subsequence of `s`
obtained by deleting only characters of those ranges. -/
theorem stripDiacritics_exact (s : JStr) :
    stripDiacritics s = s.filter (fun c => !(isArabicDiacritic c)) ∧
    List.Sublist (stripDiacritics s) s ∧
    ∀ c : Nat, (c ∈ stripDiacritics s ↔ c ∈ s ∧ isArabicDiacritic c = false) := by
  refine ⟨stripDiacritics_eq_filter s, ?_, ?_⟩
  · rw [stripDiacritics_eq_filter]
    exact List.filter_sublist s
  · intro c
    rw [stripDiacritics_eq_filter]
    simp [List.mem_filter]

/-- C6 counterexample: `normalizeArabic` applied to JavaScript `null` does
not return a result — the ES2015 default parameter substitutes only for
`undefined`, so `null.replace(...)` raises a TypeError. -/
theorem normalizeArabicJS_null_fails :
    normalizeArabicJS JSVal.nullV = Except.error () := rfl

/-- C6 (amended): the three normalizers are pure and never fail for empty
or `undefined` input (treated as the empty string), and `stripDiacritics`
and the script classifier also accept `null` (`stripDiacritics` treats it
as the empty string, the classifier returns `false` for it); only
`normalizeArabic` fails on `null`, which `normalizeArabicJS_null_fails`
records. -/
theorem normalizers_total :
    (∀ v, ∃ r, stripDiacriticsJS v = .ok r) ∧
    stripDiacriticsJS JSVal.nullV = stripDiacriticsJS (JSVal.strV []) ∧
    stripDiacriticsJS JSVal.undefV = stripDiacriticsJS (JSVal.strV []) ∧
    normalizeArabicJS JSVal.undefV = .ok (normalizeArabic []) ∧
    (∀ s, normalizeArabicJS (JSVal.strV s) = .ok (normalizeArabic s)) ∧
    (∀ v, ∃ b, safeIsArabicStringJS v = .ok b) ∧
    safeIsArabicStringJS JSVal.nullV = .ok (safeIsArabicString []) ∧
    safeIsArabicStringJS JSVal.undefV = .ok (safeIsArabicString []) := by
  refine ⟨fun v => ?_, rfl, rfl, rfl, fun s => rfl, fun v => ?_, rfl, rfl⟩
  · cases v <;> exact ⟨_, rfl⟩
  · cases v <;> exact ⟨_, rfl⟩

/-- Mapping a function that fixes every member of a list is the identity. -/
theorem map_fixed {f : Nat → Nat} : ∀ t : JStr, (∀ c ∈ t, f c = c) → t.map f = t := by
  intro t h
  induction t with
  | nil => rfl
  | cons c cs ih => simp_all

/-- The composite of the four letter-form canonicalizations lands on a
fixed point of each of them. -/
theorem reps_fix (c : Nat) :
    alefToBare (hamzaCarrierToHamza (taMarbutaToHaa (maksuraToYaa (alefToBare c)))) =
      hamzaCarrierToHamza (taMarbutaToHaa (maksuraToYaa (alefToBare c))) ∧
    maksuraToYaa (hamzaCarrierToHamza (taMarbutaToHaa (maksuraToYaa (alefToBare c)))) =
      hamzaCarrierToHamza (taMarbutaToHaa (maksuraToYaa (alefToBare c))) ∧
    taMarbutaToHaa (hamzaCarrierToHamza (taMarbutaToHaa (maksuraToYaa (alefToBare c)))) =
      hamzaCarrierToHamza (taMarbutaToHaa (maksuraToYaa (alefToBare c))) ∧
    hamzaCarrierToHamza (hamzaCarrierToHamza (taMarbutaToHaa (maksuraToYaa (alefToBare c)))) =
      hamzaCarrierToHamza (taMarbutaToHaa (maksuraToYaa (alefToBare c))) := by
  simp only [alefToBare, maksuraToYaa, taMarbutaToHaa, hamzaCarrierToHamza]
  split_ifs <;> omega

/-- Every character surviving `normalizeArabic` is fixed by each
canonicalization step and kept by both filters. -/
theorem normalizeArabic_mem_fixed (s : JStr) :
    ∀ c ∈ normalizeArabic s,
      alefToBare c = c ∧ maksuraToYaa c = c ∧ taMarbutaToHaa c = c ∧
      hamzaCarrierToHamza c = c ∧ (c != 0x640) = true ∧
      (inArabicBlock c || isJsWs c) = true := by
  intro c hc
  unfold normalizeArabic at hc
  rw [List.mem_filter] at hc
  obtain ⟨hc1, hkeep⟩ := hc
  rw [List.mem_filter] at hc1
  obtain ⟨hc2, htat⟩ := hc1
  simp only [List.mem_map] at hc2
  obtain ⟨a, ⟨b, ⟨e, ⟨f, _, rfl⟩, rfl⟩, rfl⟩, rfl⟩ := hc2
  exact ⟨(reps_fix f).1, (reps_fix f).2.1, (reps_fix f).2.2.1,
    (reps_fix f).2.2.2, htat, hkeep⟩

/-- C7: both string normalizers are idempotent:
`stripDiacritics (stripDiacritics s) = stripDiacritics s` and
`normalizeArabic (normalizeArabic s) = normalizeArabic s`. -/
theorem normalizers_idempotent (s : JStr) :
    stripDiacritics (stripDiacritics s) = stripDiacritics s ∧
    normalizeArabic (normalizeArabic s) = normalizeArabic s := by
  constructor
  · rw [stripDiacritics_eq_filter (stripDiacritics s)]
    apply List.filter_eq_self.mpr
    intro a ha
    rw [stripDiacritics_eq_filter] at ha
    exact (List.mem_filter.mp ha).2
  · have hmem := normalizeArabic_mem_fixed s
    have h1 : (normalizeArabic s).map alefToBare = normalizeArabic s :=
      map_fixed _ (fun c hc => (hmem c hc).1)
    have h2 : (normalizeArabic s).map maksuraToYaa = normalizeArabic s :=
      map_fixed _ (fun c hc => (hmem c hc).2.1)
    have h3 : (normalizeArabic s).map taMarbutaToHaa = normalizeArabic s :=
      map_fixed _ (fun c hc => (hmem c hc).2.2.1)
    have h4 : (normalizeArabic s).map hamzaCarrierToHamza = normalizeArabic s :=
      map_fixed _ (fun c hc => (hmem c hc).2.2.2.1)
    have h5 : (normalizeArabic s).filter (fun c => c != 0x640) = normalizeArabic s :=
      List.filter_eq_self.mpr (fun c hc => (hmem c hc).2.2.2.2.1)
    have h6 : (normalizeArabic s).filter (fun c => inArabicBlock c || isJsWs c) =
        normalizeArabic s :=
      List.filter_eq_self.mpr (fun c hc => (hmem c hc).2.2.2.2.2)
    show ((((((normalizeArabic s).map alefToBare).map maksuraToYaa).map
        taMarbutaToHaa).map hamzaCarrierToHamza).filter
          (fun c => c != 0x640)).filter (fun c => inArabicBlock c || isJsWs c)
      = normalizeArabic s
    rw [h1, h2, h3, h4, h5, h6]

/-! ### Cache lemmas -/

/-- Deleting a key never lengthens the entry list. -/
theorem eraseKey_length_le (es : List (JStr × JStr)) (k : JStr) :
    (eraseKey es k).length ≤ es.length := by
  induction es with
  | nil => simp [eraseKey]
  | cons e es ih =>
    obtain ⟨k0, v0⟩ := e
    by_cases h : k0 = k
    · simp [eraseKey, h]
    · simp only [eraseKey, if_neg h, List.length_cons]
      omega

/-- Deleting a present key shortens the entry list by exactly one. -/
theorem eraseKey_length_of_mem (es : List (JStr × JStr)) (k : JStr) (v : JStr)
    (h : lookupKey es k = some v) :
    (eraseKey es k).length + 1 = es.length := by
  induction es with
  | nil => simp [lookupKey] at h
  | cons e es ih =>
    obtain ⟨k0, v0⟩ := e
    by_cases hk : k0 = k
    · simp [eraseKey, hk]
    · simp only [lookupKey, if_neg hk] at h
      simp [eraseKey, hk, ih h]

/-- Deleting an absent key is a no-op. -/
theorem eraseKey_of_not_mem (es : List (JStr × JStr)) (k : JStr)
    (h : lookupKey es k = Option.none) : eraseKey es k = es := by
  induction es with
  | nil => rfl
  | cons e es ih =>
    obtain ⟨k0, v0⟩ := e
    by_cases hk : k0 = k
    · simp [lookupKey, hk] at h
    · simp only [lookupKey, if_neg hk] at h
      simp [eraseKey, hk, ih h]

/-- A key is unbound exactly when it is not among the entry keys. -/
theorem lookupKey_eq_none_iff (es : List (JStr × JStr)) (k : JStr) :
    lookupKey es k = Option.none ↔ k ∉ es.map Prod.fst := by
  induction es with
  | nil => simp [lookupKey]
  | cons e es ih =>
    obtain ⟨k0, v0⟩ := e
    by_cases hk : k0 = k
    · simp [lookupKey, hk, ih]
    · simp [lookupKey, hk, ih]
      tauto

/-- Lookup over an append searches the left part first. -/
theorem lookupKey_append (es l : List (JStr × JStr)) (k : JStr) :
    lookupKey (es ++ l) k =
      match lookupKey es k with
      | some v => some v
      | Option.none => lookupKey l k := by
  induction es with
  | nil => simp [lookupKey]
  | cons e es ih =>
    obtain ⟨k0, v0⟩ := e
    by_cases hk : k0 = k <;> simp [lookupKey, hk, ih]

/-- A key unbound in a list is unbound in its tail. -/
theorem lookupKey_tail_none (es : List (JStr × JStr)) (k : JStr)
    (h : lookupKey es k = Option.none) : lookupKey es.tail k = Option.none := by
  cases es with
  | nil => rfl
  | cons e es =>
    obtain ⟨k0, v0⟩ := e
    by_cases hk : k0 = k
    · simp [lookupKey, hk] at h
    · simpa using (by simpa [lookupKey, hk] using h : lookupKey es k = Option.none)

/-- The entry list produced by `set`, with its eviction case explicit. -/
theorem set_entries (c : WordCache) (k v : JStr) :
    (c.set k v).entries =
      if c.limit < (eraseKey c.entries k ++ [(k, v)]).length then
        (eraseKey c.entries k ++ [(k, v)]).tail
      else eraseKey c.entries k ++ [(k, v)] := by
  simp only [WordCache.set]
  split <;> rfl

/-- `set` never changes the capacity. -/
theorem set_limit (c : WordCache) (k v : JStr) : (c.set k v).limit = c.limit := by
  simp only [WordCache.set]
  split <;> rfl

/-- `get` never changes the number of entries. -/
theorem get_length (c : WordCache) (k : JStr) :
    ((c.get k).2).entries.length = c.entries.length := by
  unfold WordCache.get
  cases h : lookupKey c.entries k with
  | none => rfl
  | some v =>
    have hl := eraseKey_length_of_mem c.entries k v h
    simp only [List.length_append, List.length_cons, List.length_nil]
    omega

/-- `get` never changes the capacity. -/
theorem get_limit (c : WordCache) (k : JStr) : ((c.get k).2).limit = c.limit := by
  unfold WordCache.get
  cases lookupKey c.entries k <;> rfl

/-- `applyOp` never changes the capacity. -/
theorem applyOp_limit (c : WordCache) (op : CacheOp) :
    (applyOp c op).limit = c.limit := by
  cases op with
  | getOp k => exact get_limit c k
  | setOp k v => exact set_limit c k v

/-- One operation preserves the capacity bound. -/
theorem applyOp_bound (c : WordCache) (op : CacheOp)
    (h : c.entries.length ≤ c.limit) :
    (applyOp c op).entries.length ≤ c.limit := by
  cases op with
  | getOp k => simpa [applyOp, get_length] using h
  | setOp k v =>
    show (c.set k v).entries.length ≤ c.limit
    have hle := eraseKey_length_le c.entries k
    rw [set_entries]
    split
    · simp only [List.length_tail, List.length_append, List.length_cons,
        List.length_nil]
      omega
    · simp only [not_lt, List.length_append, List.length_cons,
        List.length_nil] at *
      omega

/-- Any sequence of operations preserves the capacity bound. -/
theorem applyOps_bound (ops : List CacheOp) : ∀ c : WordCache,
    c.entries.length ≤ c.limit → (applyOps c ops).entries.length ≤ c.limit := by
  induction ops with
  | nil => intro c h; exact h
  | cons op ops ih =>
    intro c h
    have h1 := applyOp_bound c op h
    have h2 := applyOp_limit c op
    have h3 := ih (applyOp c op) (by rw [h2]; exact h1)
    rw [h2] at h3
    simpa [applyOps] using h3

/-- Inserting fresh, pairwise-distinct keys that fit under the capacity
appends them in order without evicting anything. -/
theorem insertList_fresh : ∀ (ks : List (JStr × JStr)) (c : WordCache),
    (∀ k ∈ ks.map Prod.fst, k ∉ c.entries.map Prod.fst) →
    (ks.map Prod.fst).Nodup →
    c.entries.length + ks.length ≤ c.limit →
    (insertList c ks).entries = c.entries ++ ks ∧
    (insertList c ks).limit = c.limit := by
  intro ks
  induction ks with
  | nil => intro c _ _ _; simp [insertList]
  | cons kv rest ih =>
    obtain ⟨k, v⟩ := kv
    intro c hfresh hnodup hlen
    have hkfresh : k ∉ c.entries.map Prod.fst := hfresh k (by simp)
    have hknone : lookupKey c.entries k = Option.none :=
      (lookupKey_eq_none_iff _ _).mpr hkfresh
    simp only [List.map_cons] at hnodup
    simp only [List.length_cons] at hlen
    have hset : (c.set k v).entries = c.entries ++ [(k, v)] := by
      rw [set_entries, eraseKey_of_not_mem _ _ hknone, if_neg]
      simp only [List.length_append, List.length_cons, List.length_nil]
      omega
    have hrest := ih (c.set k v)
      (by
        intro k' hk'
        rw [hset]
        simp only [List.map_append, List.mem_append, List.map_cons,
          List.map_nil, List.mem_singleton]
        rintro (h | h)
        · exact hfresh k' (by simp [hk']) h
        · exact (List.nodup_cons.mp hnodup).1 (h ▸ hk'))
      (List.nodup_cons.mp hnodup).2
      (by
        rw [set_limit]
        have hlen2 : (c.set k v).entries.length = c.entries.length + 1 := by
          rw [hset]; simp
        omega)
    constructor
    · show (insertList (c.set k v) rest).entries = c.entries ++ ((k, v) :: rest)
      rw [hrest.1, hset, List.append_assoc, List.singleton_append]
    · show (insertList (c.set k v) rest).limit = c.limit
      rw [hrest.2, set_limit]

/-- Inserting fresh, pairwise-distinct keys that overflow the capacity by
exactly one evicts exactly the oldest entry. -/
theorem insertList_overflow : ∀ (ks : List (JStr × JStr)) (c : WordCache),
    ks ≠ [] →
    (∀ k ∈ ks.map Prod.fst, k ∉ c.entries.map Prod.fst) →
    (ks.map Prod.fst).Nodup →
    c.entries.length + ks.length = c.limit + 1 →
    (insertList c ks).entries = (c.entries ++ ks).tail ∧
    (insertList c ks).limit = c.limit := by
  intro ks
  induction ks with
  | nil => intro c hne _ _ _; exact absurd rfl hne
  | cons kv rest ih =>
    obtain ⟨k, v⟩ := kv
    intro c _ hfresh hnodup hlen
    have hkfresh : k ∉ c.entries.map Prod.fst := hfresh k (by simp)
    have hknone : lookupKey c.entries k = Option.none :=
      (lookupKey_eq_none_iff _ _).mpr hkfresh
    simp only [List.map_cons] at hnodup
    cases rest with
    | nil =>
      simp only [List.length_cons, List.length_nil] at hlen
      have hovf : (c.set k v).entries = (c.entries ++ [(k, v)]).tail := by
        rw [set_entries, eraseKey_of_not_mem _ _ hknone, if_pos]
        simp only [List.length_append, List.length_cons, List.length_nil]
        omega
      exact ⟨hovf, set_limit c k v⟩
    | cons r rs =>
      simp only [List.length_cons] at hlen
      have hset : (c.set k v).entries = c.entries ++ [(k, v)] := by
        rw [set_entries, eraseKey_of_not_mem _ _ hknone, if_neg]
        simp only [List.length_append, List.length_cons, List.length_nil]
        omega
      have hrest := ih (c.set k v)
        (by simp)
        (by
          intro k' hk'
          rw [hset]
          simp only [List.map_append, List.mem_append, List.map_cons,
            List.map_nil, List.mem_singleton]
          rintro (h | h)
          · exact hfresh k'
              (by simp only [List.map_cons]; exact List.mem_cons_of_mem _ hk') h
          · exact (List.nodup_cons.mp hnodup).1 (h ▸ hk'))
        (List.nodup_cons.mp hnodup).2
        (by
          rw [set_limit]
          have hlen2 : (c.set k v).entries.length = c.entries.length + 1 := by
            rw [hset]; simp
          simp only [List.length_cons]
          omega)
      constructor
      · show (insertList (c.set k v) (r :: rs)).entries
          = (c.entries ++ ((k, v) :: r :: rs)).tail
        rw [hrest.1, hset, List.append_assoc, List.singleton_append]
      · show (insertList (c.set k v) (r :: rs)).limit = c.limit
        rw [hrest.2, set_limit]

/-- C3: the word-tooltip cache is a bounded LRU store: (1) any sequence of
`get`/`set` operations keeps the entry count within the capacity; (2)
inserting `N + 1` distinct keys into an empty capacity-`N` cache leaves
exactly `N` entries, evicting precisely the first-inserted, never-touched
key; (3) a `get` refreshes recency: inserting distinct keys `k1 .. kN`,
reading `k1`, then inserting a fresh key evicts `k2` and retains `k1`. -/
theorem wordCache_lru :
    (∀ (c : WordCache) (ops : List CacheOp), c.entries.length ≤ c.limit →
      (applyOps c ops).entries.length ≤ c.limit) ∧
    (∀ (n : Nat) (ks : List (JStr × JStr)), ks.length = n + 1 →
      (ks.map Prod.fst).Nodup →
      (insertList { limit := n, entries := [] } ks).entries = ks.tail ∧
      (insertList { limit := n, entries := [] } ks).entries.length = n) ∧
    (∀ (k1 v1 k2 v2 : JStr) (rest : List (JStr × JStr)) (kN vN : JStr),
      k1 ≠ k2 → k1 ∉ rest.map Prod.fst → k2 ∉ rest.map Prod.fst →
      (rest.map Prod.fst).Nodup → kN ≠ k1 → kN ≠ k2 →
      kN ∉ rest.map Prod.fst →
      (let ks := (k1, v1) :: (k2, v2) :: rest
       let c1 := insertList { limit := ks.length, entries := [] } ks
       let c3 := ((c1.get k1).2).set kN vN
       c3.entries = rest ++ [(k1, v1), (kN, vN)] ∧
       lookupKey c3.entries k2 = Option.none ∧
       lookupKey c3.entries k1 = some v1)) := by
  refine ⟨fun c ops h => applyOps_bound ops c h, ?_, ?_⟩
  · intro n ks hlen hnodup
    have h := insertList_overflow ks { limit := n, entries := [] }
      (by intro he; rw [he] at hlen; simp at hlen)
      (by simp) hnodup (by simpa using hlen)
    have he : (insertList { limit := n, entries := [] } ks).entries = ks.tail := by
      rw [h.1]; simp
    refine ⟨he, ?_⟩
    rw [he, List.length_tail, hlen]
    omega
  · intro k1 v1 k2 v2 rest kN vN h12 h1r h2r hrr hN1 hN2 hNr
    intro ks c1 c3
    have hkeys : (ks.map Prod.fst).Nodup := by
      simp only [ks, List.map_cons, List.nodup_cons, List.mem_cons]
      exact ⟨by tauto, h2r, hrr⟩
    have hA := insertList_fresh ks { limit := ks.length, entries := [] }
      (by simp) hkeys (by simp)
    have hc1e : c1.entries = ks := by
      show (insertList { limit := ks.length, entries := [] } ks).entries = ks
      rw [hA.1]; simp
    have hc1l : c1.limit = ks.length := by
      show (insertList { limit := ks.length, entries := [] } ks).limit = ks.length
      rw [hA.2]
    have hget1 : lookupKey c1.entries k1 = some v1 := by
      rw [hc1e]; simp [ks, lookupKey]
    have hc2 : (c1.get k1).2 =
        { c1 with entries := eraseKey c1.entries k1 ++ [(k1, v1)] } := by
      unfold WordCache.get
      rw [hget1]
    have hc2e : (c1.get k1).2.entries = ((k2, v2) :: rest) ++ [(k1, v1)] := by
      rw [hc2]
      show eraseKey c1.entries k1 ++ [(k1, v1)] = _
      rw [hc1e]
      simp [ks, eraseKey]
    have hc2l : (c1.get k1).2.limit = ks.length := by rw [hc2]; exact hc1l
    have hkNnone : lookupKey (c1.get k1).2.entries kN = Option.none := by
      apply (lookupKey_eq_none_iff _ _).mpr
      rw [hc2e]
      simp only [List.map_append, List.map_cons, List.map_nil, List.mem_append,
        List.mem_cons, List.not_mem_nil, List.mem_singleton]
      tauto
    have hc3e : c3.entries = rest ++ [(k1, v1), (kN, vN)] := by
      show (((c1.get k1).2).set kN vN).entries = _
      rw [set_entries, eraseKey_of_not_mem _ _ hkNnone, if_pos, hc2e]
      · simp
      · rw [hc2e, hc2l]
        simp [ks]
    refine ⟨hc3e, ?_, ?_⟩
    · rw [hc3e]
      apply (lookupKey_eq_none_iff _ _).mpr
      simp only [List.map_append, List.map_cons, List.map_nil, List.mem_append,
        List.mem_cons, List.not_mem_nil, List.mem_singleton]
      tauto
    · rw [hc3e, lookupKey_append,
        (lookupKey_eq_none_iff rest k1).mpr h1r]
      simp [lookupKey]

/-- C3 witness: a concrete run at capacity 2 — the bound holds after a
four-operation sequence, inserting three distinct keys evicts the first,
and the read key survives while the unread one is evicted. -/
theorem wordCache_lru_witness :
    (applyOps { limit := 2, entries := [] }
      [CacheOp.setOp [1] [10], CacheOp.setOp [2] [20], CacheOp.getOp [1],
        CacheOp.setOp [3] [30]]).entries.length ≤ 2 ∧
    (insertList { limit := 2, entries := [] }
      [([1], [10]), ([2], [20]), ([3], [30])]).entries
      = [([2], [20]), ([3], [30])] ∧
    (let c3 := ((insertList { limit := 2, entries := [] }
        [([1], [10]), ([2], [20])]).get [1]).2.set [3] [30]
     c3.entries = [([1], [10]), ([3], [30])] ∧
     lookupKey c3.entries [2] = Option.none ∧
     lookupKey c3.entries [1] = some [10]) := by
  refine ⟨wordCache_lru.1 _ _ (by decide), (wordCache_lru.2.1 2 _ (by decide) (by decide)).1, ?_⟩
  exact wordCache_lru.2.2 [1] [10] [2] [20] [] [3] [30] (by decide) (by decide)
    (by decide) (by decide) (by decide) (by decide) (by decide)

/-! ### Tooltip resolver theorems -/

/-- C1 counterexample: when every lexicon candidate misses, the cache
misses, and the translation call succeeds with the *empty* string, the
resolver does not return (or store) that successful result — it returns
the raw word and stores the raw word in the cache. -/
theorem getWordTooltip_emptySuccess_cex :
    (getWordTooltip [0x642] (fun _ => Option.none)
        { limit := 1000, entries := [] } (.ok [])).tip = [0x642] ∧
    ([0x642] : JStr) ≠ [] ∧
    (getWordTooltip [0x642] (fun _ => Option.none)
        { limit := 1000, entries := [] } (.ok [])).cache.entries
      = [([0x642], [0x642])] := by
  decide

/-- C1 (amended): for a word with non-blank content, `getWordTooltip`
tries the lexicon candidates in the fixed order raw word,
diacritic-stripped, letter-normalized, stripped-then-normalized, and
returns the first hit's gloss list joined by comma-space; if no candidate
matches it returns a non-empty cache hit keyed by the raw word (refreshing
its recency); otherwise it calls the translation service with the raw
word and, on success, stores in the cache — keyed by the raw word — and
returns the translated text if it is non-empty and the raw word otherwise;
on translation failure it returns the raw word with the cache untouched,
never propagating the failure. -/
theorem getWordTooltip_spec (arWord : JStr) (lexicon : JStr → Option LexEntry)
    (cache : WordCache) (translated : Except Unit JStr)
    (hw : trimWs arWord ≠ []) :
    (∀ e, lexicon arWord = some e →
      getWordTooltip arWord lexicon cache translated =
        { tip := joinComma (e.glosses.getD []), cache := cache,
          translateCalled := false }) ∧
    (lexicon arWord = Option.none →
      ∀ e, lexicon (stripDiacritics arWord) = some e →
      getWordTooltip arWord lexicon cache translated =
        { tip := joinComma (e.glosses.getD []), cache := cache,
          translateCalled := false }) ∧
    (lexicon arWord = Option.none →
      lexicon (stripDiacritics arWord) = Option.none →
      ∀ e, lexicon (normalizeArabic arWord) = some e →
      getWordTooltip arWord lexicon cache translated =
        { tip := joinComma (e.glosses.getD []), cache := cache,
          translateCalled := false }) ∧
    (lexicon arWord = Option.none →
      lexicon (stripDiacritics arWord) = Option.none →
      lexicon (normalizeArabic arWord) = Option.none →
      ∀ e, lexicon (normalizeArabic (stripDiacritics arWord)) = some e →
      getWordTooltip arWord lexicon cache translated =
        { tip := joinComma (e.glosses.getD []), cache := cache,
          translateCalled := false }) ∧
    (lexicon arWord = Option.none →
      lexicon (stripDiacritics arWord) = Option.none →
      lexicon (normalizeArabic arWord) = Option.none →
      lexicon (normalizeArabic (stripDiacritics arWord)) = Option.none →
      (∀ v, lookupKey cache.entries arWord = some v → v ≠ [] →
        getWordTooltip arWord lexicon cache translated =
          { tip := v, cache := (cache.get arWord).2,
            translateCalled := false }) ∧
      (lookupKey cache.entries arWord = Option.none →
        (∀ en, translated = .ok en → en ≠ [] →
          getWordTooltip arWord lexicon cache translated =
            { tip := en, cache := cache.set arWord en,
              translateCalled := true }) ∧
        (translated = .ok [] →
          getWordTooltip arWord lexicon cache translated =
            { tip := arWord, cache := cache.set arWord arWord,
              translateCalled := true }) ∧
        (∀ u, translated = .error u →
          getWordTooltip arWord lexicon cache translated =
            { tip := arWord, cache := cache, translateCalled := true }))) := by
  refine ⟨?_, ?_, ?_, ?_, ?_⟩
  · intro e he
    simp [getWordTooltip, if_neg hw, firstHit, he]
  · intro h1 e he
    simp [getWordTooltip, if_neg hw, firstHit, h1, he]
  · intro h1 h2 e he
    simp [getWordTooltip, if_neg hw, firstHit, h1, h2, he]
  · intro h1 h2 h3 e he
    simp [getWordTooltip, if_neg hw, firstHit, h1, h2, h3, he]
  · intro h1 h2 h3 h4
    have hfh : firstHit lexicon [arWord, stripDiacritics arWord,
        normalizeArabic arWord, normalizeArabic (stripDiacritics arWord)]
        = Option.none := by
      simp [firstHit, h1, h2, h3, h4]
    constructor
    · intro v hv hvne
      have hget : cache.get arWord =
          (some v, { cache with entries := eraseKey cache.entries arWord ++ [(arWord, v)] }) := by
        unfold WordCache.get
        rw [hv]
      simp only [getWordTooltip, if_neg hw, hfh, hget, ne_eq, hvne,
        not_false_iff, if_true]
    · intro hmiss
      have hget : cache.get arWord = (Option.none, cache) := by
        unfold WordCache.get
        rw [hmiss]
      refine ⟨?_, ?_, ?_⟩
      · intro en hen henne
        simp only [getWordTooltip, if_neg hw, hfh, hget, hen, translateStep,
          if_neg henne]
      · intro hen
        simp only [getWordTooltip, if_neg hw, hfh, hget, hen, translateStep]
        simp
      · intro u hu
        simp only [getWordTooltip, if_neg hw, hfh, hget, hu, translateStep]

/-- C1 witness: a concrete lexicon hit on the raw word returns the joined
glosses without touching the cache or the translation service. -/
theorem getWordTooltip_spec_witness :
    getWordTooltip [0x642]
      (fun s => if s = [0x642] then some { glosses := some [[0x61], [0x62]] }
        else Option.none)
      { limit := 1000, entries := [] } (.error ()) =
      { tip := [0x61, 0x2C, 0x20, 0x62],
        cache := { limit := 1000, entries := [] }, translateCalled := false } := by
  have h := (getWordTooltip_spec [0x642]
    (fun s => if s = [0x642] then some { glosses := some [[0x61], [0x62]] }
      else Option.none)
    { limit := 1000, entries := [] } (.error ()) (by decide)).1
    { glosses := some [[0x61], [0x62]] } (by simp)
  exact h

/-- C10: when a word misses the lexicon and the cache and the translation
succeeds with the empty string, the resolver returns the raw word and
caches the raw word under itself, so any later resolution of the same word
(whatever its translation outcome would be) answers from the cache without
calling the translation service again. -/
theorem emptySuccess_cached (arWord : JStr) (lexicon : JStr → Option LexEntry)
    (cache : WordCache) (hw : trimWs arWord ≠ [])
    (h1 : lexicon arWord = Option.none)
    (h2 : lexicon (stripDiacritics arWord) = Option.none)
    (h3 : lexicon (normalizeArabic arWord) = Option.none)
    (h4 : lexicon (normalizeArabic (stripDiacritics arWord)) = Option.none)
    (hmiss : lookupKey cache.entries arWord = Option.none)
    (hlim : 0 < cache.limit) :
    (getWordTooltip arWord lexicon cache (.ok [])).tip = arWord ∧
    (getWordTooltip arWord lexicon cache (.ok [])).cache
      = cache.set arWord arWord ∧
    (getWordTooltip arWord lexicon cache (.ok [])).translateCalled = true ∧
    ∀ tr2,
      (getWordTooltip arWord lexicon
        (getWordTooltip arWord lexicon cache (.ok [])).cache tr2).tip = arWord ∧
      (getWordTooltip arWord lexicon
        (getWordTooltip arWord lexicon cache (.ok [])).cache tr2).translateCalled
        = false := by
  have hword_ne : arWord ≠ [] := by
    intro he
    rw [he] at hw
    exact hw rfl
  have hr1 := ((((getWordTooltip_spec arWord lexicon cache (.ok []) hw).2.2.2.2
    h1 h2 h3 h4).2 hmiss).2.1 rfl)
  have hlook : lookupKey (cache.set arWord arWord).entries arWord
      = some arWord := by
    rw [set_entries, eraseKey_of_not_mem _ _ hmiss]
    by_cases hb : cache.limit < (cache.entries ++ [(arWord, arWord)]).length
    · rw [if_pos hb]
      have hne : cache.entries ≠ [] := by
        intro he
        rw [he] at hb
        simp at hb
        omega
      obtain ⟨e0, es, hes⟩ := List.exists_cons_of_ne_nil hne
      rw [hes]
      simp only [List.cons_append, List.tail_cons]
      have htl : lookupKey es arWord = Option.none := by
        have := lookupKey_tail_none cache.entries arWord hmiss
        rw [hes] at this
        simpa using this
      rw [lookupKey_append, htl]
      simp [lookupKey]
    · rw [if_neg hb]
      rw [lookupKey_append, hmiss]
      simp [lookupKey]
  refine ⟨by rw [hr1], by rw [hr1], by rw [hr1], ?_⟩
  intro tr2
  have hr2 := ((getWordTooltip_spec arWord lexicon
    (getWordTooltip arWord lexicon cache (.ok [])).cache tr2 hw).2.2.2.2
    h1 h2 h3 h4).1 arWord (by rw [hr1]; exact hlook) hword_ne
  rw [hr2]
  exact ⟨rfl, rfl⟩

/-- C10 witness: a concrete word, an empty lexicon, an empty cache, and an
empty-string translation success — the word is cached under itself and the
follow-up resolution answers from the cache. -/
theorem emptySuccess_cached_witness :
    (getWordTooltip [0x642] (fun _ => Option.none)
      { limit := 1000, entries := [] } (.ok [])).tip = [0x642] ∧
    (getWordTooltip [0x642] (fun _ => Option.none)
      (getWordTooltip [0x642] (fun _ => Option.none)
        { limit := 1000, entries := [] } (.ok [])).cache
      (.error ())).translateCalled = false := by
  have h := emptySuccess_cached [0x642] (fun _ => Option.none)
    { limit := 1000, entries := [] } (by decide) rfl rfl rfl rfl rfl
    (by decide)
  exact ⟨h.1, (h.2.2.2 (.error ())).2⟩

/-! ### Text-layer usability gate theorems -/

/-- `attemptTextLayer` with its branching spelled out. -/
theorem attemptTextLayer_eq (items : List TextItem) (vp : Viewport) :
    attemptTextLayer items vp =
      if 0 < items.length ∧
          5 * (items.filter (fun it => safeIsArabicString it.str)).length
            < items.length then
        { words := [], mode := "none", reason := "embedded-glyphs" }
      else if (layoutWordsFromTextItems items vp).length < 3 then
        { words := layoutWordsFromTextItems items vp, mode := "none",
          reason := "no-words" }
      else
        { words := layoutWordsFromTextItems items vp, mode := "text",
          reason := "" } := rfl

/-- C4: for a page with a non-empty run list, the text-layer result is
usable (`mode = "text"`) iff at least `0.2` of the runs classify as target
script (inclusive boundary: `length ≤ 5 * count`) and at least 3 word
boxes were produced; a ratio below `0.2` flags `embedded-glyphs` and fewer
than 3 boxes flags `no-words`, both with mode `"none"` (routing the page
to the OCR fallback). -/
theorem textLayer_gate (items : List TextItem) (vp : Viewport)
    (hne : items ≠ []) :
    ((attemptTextLayer items vp).mode = "text" ↔
      (items.length ≤
          5 * (items.filter (fun it => safeIsArabicString it.str)).length ∧
        3 ≤ (layoutWordsFromTextItems items vp).length)) ∧
    (5 * (items.filter (fun it => safeIsArabicString it.str)).length
        < items.length →
      (attemptTextLayer items vp).mode = "none" ∧
      (attemptTextLayer items vp).reason = "embedded-glyphs") ∧
    (items.length ≤
        5 * (items.filter (fun it => safeIsArabicString it.str)).length →
      (layoutWordsFromTextItems items vp).length < 3 →
      (attemptTextLayer items vp).mode = "none" ∧
      (attemptTextLayer items vp).reason = "no-words") := by
  have hlen : 0 < items.length := List.length_pos.mpr hne
  rw [attemptTextLayer_eq]
  split_ifs with hg hw
  · refine ⟨⟨fun hmode =>
      absurd (show ("none" : String) = "text" from hmode) (by decide),
      fun hrhs => absurd hg.2 (not_lt.mpr hrhs.1)⟩,
      fun _ => ⟨rfl, rfl⟩,
      fun hge _ => absurd hg.2 (not_lt.mpr hge)⟩
  · have hge : items.length ≤
        5 * (items.filter (fun it => safeIsArabicString it.str)).length := by
      rcases not_and_or.mp hg with h | h
      · exact absurd hlen h
      · exact not_lt.mp h
    refine ⟨⟨fun hmode =>
      absurd (show ("none" : String) = "text" from hmode) (by decide),
      fun hrhs => absurd hw (not_lt.mpr hrhs.2)⟩,
      fun hlt => absurd hlt (not_lt.mpr hge),
      fun _ _ => ⟨rfl, rfl⟩⟩
  · have hge : items.length ≤
        5 * (items.filter (fun it => safeIsArabicString it.str)).length := by
      rcases not_and_or.mp hg with h | h
      · exact absurd hlen h
      · exact not_lt.mp h
    refine ⟨⟨fun _ => ⟨hge, not_lt.mp hw⟩, fun _ => rfl⟩,
      fun hlt => absurd hlt (not_lt.mpr hge),
      fun _ h3 => absurd h3 hw⟩

/-- C4 witness: with exactly 20% target-script runs (1 Arabic run with 3
word pieces among 5 runs) the page is usable; with 19% (19 of 100 runs)
it is flagged `embedded-glyphs`. -/
theorem textLayer_gate_witness :
    (attemptTextLayer
      [{ str := [0x627, 0x20, 0x628, 0x20, 0x62C], width := 100, tx := 0,
          ty := 20, fontHeight := 10 },
        { str := [0x41], width := 10, tx := 0, ty := 0, fontHeight := 10 },
        { str := [0x42], width := 10, tx := 0, ty := 0, fontHeight := 10 },
        { str := [0x43], width := 10, tx := 0, ty := 0, fontHeight := 10 },
        { str := [0x44], width := 10, tx := 0, ty := 0, fontHeight := 10 }]
      { scale := 8 / 5 }).mode = "text" ∧
    (attemptTextLayer
      (List.replicate 19
        ({ str := [0x627], width := 10, tx := 0, ty := 0, fontHeight := 10 }
          : TextItem) ++
       List.replicate 81
        ({ str := [0x41], width := 10, tx := 0, ty := 0, fontHeight := 10 }
          : TextItem))
      { scale := 8 / 5 }).mode = "none" ∧
    (attemptTextLayer
      (List.replicate 19
        ({ str := [0x627], width := 10, tx := 0, ty := 0, fontHeight := 10 }
          : TextItem) ++
       List.replicate 81
        ({ str := [0x41], width := 10, tx := 0, ty := 0, fontHeight := 10 }
          : TextItem))
      { scale := 8 / 5 }).reason = "embedded-glyphs" := by
  refine ⟨(textLayer_gate _ _ (by decide)).1.mpr (by decide),
    ((textLayer_gate _ _ (by decide)).2.1 (by decide)).1,
    ((textLayer_gate _ _ (by decide)).2.1 (by decide)).2⟩

/-! ### OCR fallback theorems -/

/-- C2: the two-engine OCR cascade: engine 2's result is used whenever it
contains any overlay words (and then the engine-1 outcome is irrelevant);
when engine 2 yields zero overlay words, engine 1's result is used exactly
when its overlay word count is strictly greater, and engine 2's result is
kept on a tie; a call that times out or fails in transport parses to zero
overlay words, so the cascade proceeds. -/
theorem ocrFallback (o2 o1 : FetchOutcome) :
    (0 < countOverlay (callEngine o2) →
      (callWithFallback o2 o1).ParsedResults = (callEngine o2).ParsedResults ∧
      (callWithFallback o2 o1).note = some "Used OCR Engine 2." ∧
      ∀ o1b, callWithFallback o2 o1 = callWithFallback o2 o1b) ∧
    (countOverlay (callEngine o2) = 0 →
      (0 < countOverlay (callEngine o1) →
        (callWithFallback o2 o1).ParsedResults
          = (callEngine o1).ParsedResults ∧
        (callWithFallback o2 o1).note
          = some "Used OCR Engine 1 (more overlay words).") ∧
      (countOverlay (callEngine o1) = 0 →
        (callWithFallback o2 o1).ParsedResults
          = (callEngine o2).ParsedResults ∧
        (callWithFallback o2 o1).note
          = some "Engine 2 kept (Engine 1 not better).")) ∧
    (∀ m, countOverlay (callEngine (FetchOutcome.throwErr m)) = 0) := by
  refine ⟨?_, ?_, fun m => rfl⟩
  · intro h2
    constructor
    · show ((if 0 < countOverlay (callEngine o2) then _ else _ :
        OcrJson)).ParsedResults = _
      rw [if_pos h2]
    constructor
    · show ((if 0 < countOverlay (callEngine o2) then _ else _ :
        OcrJson)).note = _
      rw [if_pos h2]
    · intro o1b
      show (if 0 < countOverlay (callEngine o2) then _ else _ : OcrJson)
        = (if 0 < countOverlay (callEngine o2) then _ else _ : OcrJson)
      rw [if_pos h2, if_pos h2]
  · intro h2
    have h2n : ¬ 0 < countOverlay (callEngine o2) := by omega
    constructor
    · intro h1pos
      have h1gt : countOverlay (callEngine o2) < countOverlay (callEngine o1) := by
        omega
      constructor
      · show ((if 0 < countOverlay (callEngine o2) then _ else
          if countOverlay (callEngine o2) < countOverlay (callEngine o1)
          then _ else _ : OcrJson)).ParsedResults = _
        rw [if_neg h2n, if_pos h1gt]
      · show ((if 0 < countOverlay (callEngine o2) then _ else
          if countOverlay (callEngine o2) < countOverlay (callEngine o1)
          then _ else _ : OcrJson)).note = _
        rw [if_neg h2n, if_pos h1gt]
    · intro h1z
      have h1ngt : ¬ countOverlay (callEngine o2) < countOverlay (callEngine o1) := by
        omega
      constructor
      · show ((if 0 < countOverlay (callEngine o2) then _ else
          if countOverlay (callEngine o2) < countOverlay (callEngine o1)
          then _ else _ : OcrJson)).ParsedResults = _
        rw [if_neg h2n, if_neg h1ngt]
      · show ((if 0 < countOverlay (callEngine o2) then _ else
          if countOverlay (callEngine o2) < countOverlay (callEngine o1)
          then _ else _ : OcrJson)).note = _
        rw [if_neg h2n, if_neg h1ngt]

/-- C2 witness: engine 2 succeeds with no overlay (count 0), engine 1
returns 5 overlay words — engine 1's result is used, with the
corresponding diagnostic note. -/
theorem ocrFallback_witness :
    (callWithFallback (FetchOutcome.success {})
        (FetchOutcome.success fiveWordResp)).ParsedResults
      = (callEngine (FetchOutcome.success fiveWordResp)).ParsedResults ∧
    (callWithFallback (FetchOutcome.success {})
        (FetchOutcome.success fiveWordResp)).note
      = some "Used OCR Engine 1 (more overlay words)." := by
  exact ((ocrFallback (FetchOutcome.success {})
    (FetchOutcome.success fiveWordResp)).2.1 rfl).1 (by decide)

/-! ### Per-page pipeline theorems -/

/-- C9: per-page error containment in the `handlePdf` loop: the loop
produces one record per page input; each record is exactly the processing
of its own page's input (so one page's failure never changes another
page's record); a page whose render or text extraction throws gets its
error message captured in its record (with the image kept if it was
already produced); a page whose awaited steps all return gets no error
marker. -/
theorem pageLoop_containment (ctx : PageCtx) (inputs : List PageInput) :
    (handlePdfLoop ctx inputs).length = inputs.length ∧
    (∀ i : Nat, (handlePdfLoop ctx inputs)[i]?
      = (inputs[i]?).map (processPage ctx)) ∧
    (∀ m, (processPage ctx (PageInput.renderFail m)).error = some m ∧
      (processPage ctx (PageInput.renderFail m)).img = Option.none) ∧
    (∀ img m, (processPage ctx (PageInput.textFail img m)).error = some m ∧
      (processPage ctx (PageInput.textFail img m)).img = some img) ∧
    (∀ img items ocr,
      (processPage ctx (PageInput.okPage img items ocr)).error
        = Option.none) := by
  refine ⟨?_, ?_, fun m => ⟨rfl, rfl⟩, fun img m => ⟨rfl, rfl⟩, ?_⟩
  · induction inputs with
    | nil => rfl
    | cons inp rest ih => simpa [handlePdfLoop] using ih
  · intro i
    induction inputs generalizing i with
    | nil => simp [handlePdfLoop]
    | cons inp rest ih =>
      cases i with
      | zero => simp [handlePdfLoop]
      | succ j => simpa [handlePdfLoop] using ih j
  · intro img items ocr
    cases hf : ctx.forceOcr <;> simp [processPage, hf, finishPage]

/-! ### Hover staleness theorems -/

/-- The PDF overlay path discards stale resolutions: a resolution for a
word that is no longer the last hovered word leaves the state unchanged. -/
theorem handleEnterResume_stale (st : PdfHoverState) (word tip : JStr)
    (h : st.lastHoverWord ≠ word) : handleEnterResume st word tip = st := by
  unfold handleEnterResume
  rw [if_neg h]

/-- A closed instantiation of the stale-discard property of the PDF path. -/
theorem handleEnterResume_stale_witness :
    handleEnterResume
      { hover := some [0x628], pos := (2, 2), lastHoverWord := [0x628] }
      [0x642] [0x73, 0x61, 0x69, 0x64]
      = { hover := some [0x628], pos := (2, 2), lastHoverWord := [0x628] } :=
  handleEnterResume_stale _ _ _ (by decide)

/-- C8: evaluation at the failing interleaving. On the DOCX path, hovering
word A, then word B, then letting A's resolution complete *overwrites*
B's tooltip with A's gloss (`docxOnHoverResume` has no staleness check),
while the same interleaving on the PDF overlay path leaves B's tooltip
intact — so the claimed stale-hover suppression fails for the DOCX path. -/
theorem docxHover_stale_overwrite :
    (((docxOnHover ((docxOnHover { hoverTip := Option.none, tipPos := (0, 0) }
        (some (1, 1)) (some [0x642])).1) (some (2, 2)) (some [0x628])).1)
      |>.hoverTip) = some ([0x628], 2, 2) ∧
    ((docxOnHoverResume ((docxOnHover ((docxOnHover
        { hoverTip := Option.none, tipPos := (0, 0) }
        (some (1, 1)) (some [0x642])).1) (some (2, 2)) (some [0x628])).1)
        [0x642] [0x73, 0x61, 0x69, 0x64]).hoverTip)
      = some ([0x73, 0x61, 0x69, 0x64], 2, 2) ∧
    ([0x73, 0x61, 0x69, 0x64] : JStr) ≠ [0x628] ∧
    handleEnterResume
      { hover := some [0x628], pos := (2, 2), lastHoverWord := [0x628] }
      [0x642] [0x73, 0x61, 0x69, 0x64]
      = { hover := some [0x628], pos := (2, 2), lastHoverWord := [0x628] } := by
  decide

end HoverReader
